import Mathlib

/-!
# Verification of the AWS profile switcher (`src/awsprofile/cli.py`)

Shallow embedding of the profile-registry data model and the operations of
`AWSProfileManager`: the two INI registry files are modelled as lists of
classified lines, Python's `configparser` read/write round-trip is modelled
faithfully (strict duplicate detection, the special `DEFAULT` section, key
lower-casing via `optionxform`, comments and blank lines dropped on read,
canonical `key = value` rendering on write), and each operation of the class
becomes a function on an explicit `State`.  Python exceptions that escape an
operation are modelled by `Option` (`none` = uncaught exception); exceptions
caught inside an operation are modelled by the branch the handler takes.

Not modelled (irrelevant to the proved properties, noted for fidelity):
`configparser` interpolation errors on values containing percent signs,
multi-line continuation values, and lines that fit none of the four line
kinds (such lines make `configparser.read` raise, which our line grammar
cannot express).
-/

namespace AwsProfile

/-- Python `str.lower` (ASCII case folding, as used by `configparser.optionxform`). -/
def pyLower (s : String) : String := ⟨s.data.map Char.toLower⟩

/-- Python `str.strip`: remove leading and trailing whitespace. -/
def pyStrip (s : String) : String :=
  ⟨((s.data.dropWhile Char.isWhitespace).reverse.dropWhile Char.isWhitespace).reverse⟩

/-- One classified line of an INI registry file (`~/.aws/credentials` /
`~/.aws/config`): a `[name]` section header, a `key = value` line, a
`#`/`;` comment line, or a blank line. -/
inductive IniLine where
  | sectionHeader (name : String)
  | kv (key value : String)
  | comment (text : String)
  | blank
deriving DecidableEq, Repr

/-- The data `configparser` holds after a successful `read`: the special
`DEFAULT` section's pairs, and the ordinary sections in file order, each
with its `key = value` pairs in file order. -/
structure IniData where
  defaults : List (String × String)
  sections : List (String × List (String × String))
deriving DecidableEq, Repr

/-- Intermediate parser state: current section name (`none` before the first
header), the pairs collected for the current section, the finished sections,
and the `DEFAULT` pairs. -/
structure PState where
  cur : Option String
  curKVs : List (String × String)
  done : List (String × List (String × String))
  defaults : List (String × String)
deriving DecidableEq, Repr

/-- Close the current section (the `DEFAULT` section lives in its own field). -/
def flushCur (st : PState) : List (String × List (String × String)) :=
  match st.cur with
  | none => st.done
  | some c => if c = "DEFAULT" then st.done else st.done ++ [(c, st.curKVs)]

/-- One step of `configparser.read` (strict mode, default settings): comments
and blanks are skipped; a repeated section header raises
`DuplicateSectionError` (except `[DEFAULT]`, which may reopen); a key line
before any header raises `MissingSectionHeaderError`; a repeated key in one
section raises `DuplicateOptionError`; keys go through `optionxform`
(`str.lower`).  `none` models the raised exception. -/
def parseStep (st : PState) (l : IniLine) : Option PState :=
  match l with
  | .comment _ => some st
  | .blank => some st
  | .sectionHeader n =>
      let done' := flushCur st
      if n = "DEFAULT" then some ⟨some "DEFAULT", [], done', st.defaults⟩
      else if n ∈ done'.map Prod.fst then none
      else some ⟨some n, [], done', st.defaults⟩
  | .kv k v =>
      let k' := pyLower k
      match st.cur with
      | none => none
      | some c =>
          if c = "DEFAULT" then
            if k' ∈ st.defaults.map Prod.fst then none
            else some ⟨st.cur, st.curKVs, st.done, st.defaults ++ [(k', v)]⟩
          else
            if k' ∈ st.curKVs.map Prod.fst then none
            else some ⟨st.cur, st.curKVs ++ [(k', v)], st.done, st.defaults⟩

/-- `configparser.ConfigParser().read(path)` over the classified lines. -/
def parseINI (ls : List IniLine) : Option IniData :=
  (ls.foldlM parseStep ⟨none, [], [], []⟩).map fun st => ⟨st.defaults, flushCur st⟩

/-- The `key = value` lines of one section as written by `ConfigParser.write`. -/
def writeKVLines (kvs : List (String × String)) : List IniLine :=
  kvs.map fun p => .kv p.1 p.2

/-- One section as written by `ConfigParser.write`: header, pairs, blank line. -/
def writeSectionLines (s : String × List (String × String)) : List IniLine :=
  .sectionHeader s.1 :: (writeKVLines s.2 ++ [.blank])

/-- `ConfigParser.write`: the `DEFAULT` section first when non-empty, then
every section in insertion order. -/
def writeINI (d : IniData) : List IniLine :=
  (if d.defaults = [] then [] else writeSectionLines ("DEFAULT", d.defaults)) ++
    d.sections.flatMap writeSectionLines

/-- `ConfigParser.has_section` (always false for `DEFAULT`). -/
def hasSection (d : IniData) (n : String) : Bool :=
  d.sections.any fun s => s.1 = n

/-- `ConfigParser.remove_section`. -/
def removeSection (d : IniData) (n : String) : IniData :=
  ⟨d.defaults, d.sections.filter fun s => s.1 ≠ n⟩

/-- The pairs of a named section, if present. -/
def lookupSection (d : IniData) (n : String) : Option (List (String × String)) :=
  (d.sections.find? fun s => s.1 = n).map Prod.snd

/-- `ConfigParser.has_option('DEFAULT', k)` for an already-lower-case `k`. -/
def hasDefaultOption (d : IniData) (k : String) : Bool :=
  d.defaults.any fun p => p.1 = k

/-- The filesystem and process environment visible to `AWSProfileManager`:
the two registry files (`none` = file absent), the two backup files, the
`AWS_PROFILE` environment variable, and — read by no code path of this
program, kept to express the specification's claimed fallback — the profile
the external identity tool would report as active. -/
structure State where
  credentials : Option (List IniLine)
  config : Option (List IniLine)
  credentialsBackup : Option (List IniLine)
  configBackup : Option (List IniLine)
  awsProfile : Option String
  externalToolProfile : Option String
deriving DecidableEq, Repr

/-- Lexicographic comparison of character lists by code point —
the comparison Python's `sorted` applies to strings. -/
def charListLe : List Char → List Char → Bool
  | [], _ => true
  | _ :: _, [] => false
  | a :: as, b :: bs => if a = b then charListLe as bs else decide (a < b)

/-- Python's `<=` on strings (proved below to coincide with `String ≤`). -/
def pyStrLe (a b : String) : Bool := charListLe a.data b.data

/-- `get_current_profile` (cli.py:29-31): `os.environ.get('AWS_PROFILE', 'default')`. -/
def get_current_profile (s : State) : String :=
  s.awsProfile.getD "default"

/-- The profile list before sorting (cli.py:43-47): the credentials sections,
with `default` prepended when not listed but `DEFAULT` defines
`aws_access_key_id`. -/
def profileNames (d : IniData) : List String :=
  let ps := d.sections.map Prod.fst
  if "default" ∈ ps then ps
  else if hasDefaultOption d "aws_access_key_id" then "default" :: ps
  else ps

/-- `get_available_profiles` (cli.py:33-49).  Reads only the credentials
file; a missing file yields the empty list (after printing a hint), and the
result is `sorted(profiles)`.  `none` models `configparser.read` raising on
a malformed file (uncaught here). -/
def get_available_profiles (s : State) : Option (List String) :=
  match s.credentials with
  | none => some []
  | some ls =>
      (parseINI ls).map fun d =>
        (profileNames d).insertionSort fun a b => pyStrLe a b = true

/-- Behaviour of one external `aws` invocation, supplied by the environment:
the executable may be missing (`FileNotFoundError`), or it runs for
`duration` seconds and finishes with an exit code, a stdout that either is
not a JSON object (`none`) or decodes to its `Account`/`Arn` fields, and a
stderr text. -/
inductive ProcBehavior where
  | missing
  | runs (duration : Nat) (exitCode : Int)
      (stdoutJson : Option (Option String × Option String)) (stderr : String)
deriving DecidableEq, Repr

/-- Outcome of `subprocess.run(cmd, timeout=t)` on such a behaviour:
`TimeoutExpired` exactly when the run needs longer than `t`. -/
inductive ProcResult where
  | timedOut
  | notFound
  | completed (exitCode : Int) (stdoutJson : Option (Option String × Option String))
      (stderr : String)
deriving DecidableEq, Repr

def runProc (timeLimit : Nat) (p : ProcBehavior) : ProcResult :=
  match p with
  | .missing => .notFound
  | .runs d e o r => if timeLimit < d then .timedOut else .completed e o r

/-- `get_account_info` (cli.py:51-83): `aws sts get-caller-identity
--profile <name>` with `timeout=10`; returncode 0 → the JSON's
`Account`/`Arn` (defaulting to `"Unknown"`), non-zero → `("Invalid", stderr)`,
`TimeoutExpired` → `("Timeout", …)`, `JSONDecodeError` / `FileNotFoundError`
→ `("Error", …)`. -/
def get_account_info (profile_name : String) (p : ProcBehavior) : String × String :=
  match runProc 10 p with
  | .timedOut => ("Timeout", "AWS call timed out (>10s)")
  | .notFound => ("Error", "AWS CLI not found - please install it")
  | .completed e o r =>
      if e = 0 then
        match o with
        | none => ("Error", "Invalid JSON response from AWS")
        | some (acct, arn) => (acct.getD "Unknown", arn.getD "Unknown")
      else ("Invalid", if r = "" then "Unknown error" else pyStrip r)

/-- Python `str.split(sep)` for a one-character separator (never returns an
empty list; splitting a string containing the separator `n` times yields
`n + 1` pieces). -/
def splitOnChar (c : Char) : List Char → List (List Char)
  | [] => [[]]
  | x :: xs =>
      if x = c then [] :: splitOnChar c xs
      else (splitOnChar c xs).modifyHead (x :: ·)

/-- `extract_username` (cli.py:85-91): `arn.split('/')[-1]` when the ARN
contains `/`, else `arn.split(':')[-1]` when it contains `:`, else the ARN
itself.  Strings are embedded as their character lists. -/
def extract_username (arn : List Char) : List Char :=
  if '/' ∈ arn then (splitOnChar '/' arn).getLastD []
  else if ':' ∈ arn then (splitOnChar ':' arn).getLastD []
  else arn

/-- The characters of `s` after its last occurrence of `c` (all of `s` when
`c` does not occur) — the specification's description of username
extraction, stated independently of `split`. -/
def afterLastSep (c : Char) (s : List Char) : List Char :=
  (s.reverse.takeWhile (· ≠ c)).reverse

/-- Lines 286-296 / 297-309 of `delete_profile`: when the file exists,
re-read it, and only when it has the section, remove it and rewrite the
file.  `none` models `configparser.read` raising inside the `try` block. -/
def removeFromFile (f : Option (List IniLine)) (sec : String) :
    Option (Option (List IniLine)) :=
  match f with
  | none => some none
  | some ls =>
      match parseINI ls with
      | none => none
      | some d =>
          if hasSection d sec then some (some (writeINI (removeSection d sec)))
          else some (some ls)

/-- `delete_profile` (cli.py:253-322).  `confirm` is what `input` returns at
line 268.  Outer `none` models `configparser.read` raising at line 260
(outside the `try`, so uncaught); exceptions inside the `try` (lines
274-319) are caught and yield `False` with the state reached so far. -/
def delete_profile (s : State) (profile_name confirm : String) :
    Option (Bool × State) :=
  if profile_name = "default" then some (false, s)
  else
    match get_available_profiles s with
    | none => none
    | some profiles =>
      if profile_name ∉ profiles then some (false, s)
      else if pyLower (pyStrip confirm) ≠ "yes" then some (false, s)
      else
        let s1 : State :=
          { s with credentialsBackup :=
              if s.credentials.isSome then s.credentials else s.credentialsBackup }
        let s2 : State :=
          { s1 with configBackup :=
              if s.config.isSome then s.config else s1.configBackup }
        match removeFromFile s2.credentials profile_name with
        | none => some (false, s2)
        | some creds' =>
          let s3 : State := { s2 with credentials := creds' }
          let config_section :=
            if profile_name = "default" then profile_name else "profile " ++ profile_name
          match removeFromFile s3.config config_section with
          | none => some (false, s3)
          | some cfg' =>
            let s4 : State := { s3 with config := cfg' }
            let s5 : State :=
              if get_current_profile s4 = profile_name then { s4 with awsProfile := none }
              else s4
            some (true, s5)

/-- `ConfigParser.set` on one section dict: assignment updates an existing
key in place and appends a new key at the end. -/
def setOption (kvs : List (String × String)) (k v : String) :
    List (String × String) :=
  if kvs.any fun p => p.1 = k then kvs.map fun p => if p.1 = k then (k, v) else p
  else kvs ++ [(k, v)]

/-- `ConfigParser.set(sec, k, v)` (key through `optionxform`). -/
def setSectionOption (d : IniData) (sec k v : String) : IniData :=
  ⟨d.defaults,
    d.sections.map fun s0 =>
      if s0.1 = sec then (s0.1, setOption s0.2 (pyLower k) v) else s0⟩

/-- Lines 206-219 / 221-237 of `create_profile`: read the file (an absent
file reads as empty), `add_section` unless present (`ValueError` on the
reserved name `DEFAULT`), `set` each pair, write.  `none` models a raised
exception. -/
def upsertIntoFile (f : Option (List IniLine)) (sec : String)
    (opts : List (String × String)) : Option (List IniLine) :=
  let parsed := match f with
    | none => some (⟨[], []⟩ : IniData)
    | some ls => parseINI ls
  match parsed with
  | none => none
  | some d =>
      if ¬ hasSection d sec ∧ sec = "DEFAULT" then none
      else
        let d1 := if hasSection d sec then d
          else ⟨d.defaults, d.sections ++ [(sec, [])]⟩
        some (writeINI (opts.foldl (fun acc p => setSectionOption acc sec p.1 p.2) d1))

/-- `create_profile` (cli.py:93-251).  The interactive answers and the
behaviour of the credential-test subprocess (`timeout=15`, line 161) are
parameters; every failure branch the code catches returns `False` with the
state reached so far, and the temporary-credentials test file never touches
the registry.  Outer `none` models `configparser.read` raising at line 100
(outside the `try`). -/
def create_profile (s : State)
    (profile_name overwriteAns accessKeyIn secretKeyIn regionIn outputIn : String)
    (test : ProcBehavior) : Option (Bool × State) :=
  if profile_name = "" then some (false, s)
  else
    match get_available_profiles s with
    | none => none
    | some profiles =>
      if profile_name ∈ profiles ∧
          pyLower (pyStrip overwriteAns) ∉ (["y", "yes"] : List String) then
        some (false, s)
      else
        let access_key := pyStrip accessKeyIn
        if access_key = "" then some (false, s)
        else
          let secret_key := pyStrip secretKeyIn
          if secret_key = "" then some (false, s)
          else
            let region := if pyStrip regionIn = "" then "us-east-1" else pyStrip regionIn
            let output_format := if pyStrip outputIn = "" then "json" else pyStrip outputIn
            match runProc 15 test with
            | .timedOut => some (false, s)
            | .notFound => some (false, s)
            | .completed e o _ =>
              if e = 0 then
                match o with
                | none => some (false, s)
                | some _ =>
                  let s1 : State :=
                    { s with credentialsBackup :=
                        if s.credentials.isSome then s.credentials else s.credentialsBackup }
                  let s2 : State :=
                    { s1 with configBackup :=
                        if s.config.isSome then s.config else s1.configBackup }
                  match upsertIntoFile s2.credentials profile_name
                      [("aws_access_key_id", access_key),
                       ("aws_secret_access_key", secret_key)] with
                  | none => some (false, s2)
                  | some creds' =>
                    let s3 : State := { s2 with credentials := some creds' }
                    let cfgSection :=
                      if profile_name = "default" then profile_name
                      else "profile " ++ profile_name
                    match upsertIntoFile s3.config cfgSection
                        [("region", region), ("output", output_format)] with
                    | none => some (false, s3)
                    | some cfg' => some (true, { s3 with config := some cfg' })
              else some (false, s)

/-- `switch_profile` (cli.py:464-505).  The third component records whether
`get_account_info` (the identity validator) was invoked.  The guard
`if not account_info` at line 483 can never fire — a 2-tuple is always
truthy in Python — so it is not a branch of the model. -/
def switch_profile (s : State) (profile_name : String) (shellMode : Bool)
    (p : ProcBehavior) : Option (Bool × State × Bool) :=
  match get_available_profiles s with
  | none => none
  | some profiles =>
    if profile_name ∉ profiles then some (false, s, false)
    else if get_current_profile s = profile_name then some (true, s, false)
    else
      let _ai := get_account_info profile_name p
      if shellMode then some (true, s, true)
      else some (true, { s with awsProfile := some profile_name }, true)

/-- The user-visible messages of the listing path, one constructor per
`print` (the exact texts live in cli.py; the model tracks which message is
emitted, not its bytes). -/
inductive Msg where
  | noCredentialsFile
  | runAwsConfigureHint
  | noProfilesFound
  | createProfileHint
  | availableHeader (count : Nat)
  | separator
  | profileEntry (isCurrent : Bool) (idx : Nat) (name : String)
  | accountLine (account : String)
  | userLine (user : String)
  | blankLine
deriving DecidableEq, Repr

/-- The messages `get_available_profiles` prints (cli.py:36-37): the
missing-file report and the `aws configure` hint. -/
def get_available_profiles_msgs (s : State) : List Msg :=
  match s.credentials with
  | none => [.noCredentialsFile, .runAwsConfigureHint]
  | some _ => []

/-- The messages of one profile's listing block (cli.py:342-357). -/
def profileBlockMsgs (current : String) (proc : String → ProcBehavior)
    (ip : Nat × String) : List Msg :=
  let (account_id, username) := get_account_info ip.2 (proc ip.2)
  [.profileEntry (ip.2 = current) (ip.1 + 1) ip.2, .accountLine account_id] ++
    (if username = "Unknown" then [] else [.userLine username]) ++ [.blankLine]

/-- `list_profiles` with `names_only=False` (cli.py:324-357), as the list of
messages printed: the reader's own messages, then either the zero-profile
report with its remediation hint, or the header and the per-profile blocks.
`proc` gives the external `aws` behaviour per profile. -/
def list_profiles_msgs (s : State) (proc : String → ProcBehavior) :
    Option (List Msg) :=
  match get_available_profiles s with
  | none => none
  | some profiles =>
    let pre := get_available_profiles_msgs s
    if profiles = [] then some (pre ++ [.noProfilesFound, .createProfileHint])
    else
      some (pre ++ [.availableHeader profiles.length, .separator] ++
        (profiles.enum.flatMap (profileBlockMsgs (get_current_profile s) proc)))

/-- `pathlib.PurePath.suffix` of a file name: the final extension, empty for
names without an inner dot. -/
def path_suffix (name : String) : String :=
  let cs := name.data
  match ((List.range cs.length).filter fun i => cs.getD i ' ' = '.').getLast? with
  | none => ""
  | some i => if 0 < i ∧ i < cs.length - 1 then ⟨cs.drop i⟩ else ""

/-- `pathlib.PurePath.with_suffix`: replace (here: append, the two registry
file names being dot-free) the suffix. -/
def with_suffix (name suffix : String) : String :=
  ⟨name.data.take (name.data.length - (path_suffix name).data.length)⟩ ++ suffix

/-- The backup file name both mutating operations derive for the
credentials file (cli.py:194 and 277). -/
def credentialsBackupName : String := with_suffix "credentials" ".credentials.backup"

/-- The backup file name both mutating operations derive for the config
file (cli.py:199 and 282). -/
def configBackupName : String := with_suffix "config" ".config.backup"

/-! ## Specification-side definitions and concrete example states -/

/-- `readable`: `configparser.read` succeeds on the credentials file (an
absent file reads as empty). -/
def readableB (s : State) : Bool :=
  match s.credentials with
  | none => true
  | some ls => (parseINI ls).isSome

/-- `cfgReadableB`: `configparser.read` succeeds on the config file. -/
def cfgReadableB (s : State) : Bool :=
  match s.config with
  | none => true
  | some ls => (parseINI ls).isSome

def c2State : State :=
  ⟨some [.sectionHeader "work", .kv "aws_access_key_id" "AKIA"],
   none, none, none, none, none⟩

def c8State : State := ⟨none, none, none, none, none, none⟩

/-- Modelled from the spec (claim C9 wording): resolve the current profile
from the environment override first, then from the external identity tool's
reported state, then the fixed string `"default"`.  Stated only to compare
with the code's `get_current_profile`. -/
def getCurrentProfile_claimed (s : State) : String :=
  match s.awsProfile with
  | some v => v
  | none => s.externalToolProfile.getD "default"

def c9State : State := ⟨none, none, none, none, none, some "work"⟩

def c10State : State :=
  ⟨some [.sectionHeader "work", .kv "aws_access_key_id" "AKIA"],
   none, none, none, some "work", none⟩

/-- Folding of config-file section names as the specification describes it:
`profile <name>` becomes `<name>`. -/
def foldConfigSection (n : String) : String :=
  if n.data.take 8 = "profile ".data then ⟨n.data.drop 8⟩ else n

/-- Modelled from the spec (claim C5 wording): the unified, deduplicated,
sorted set of credentials-file section names and folded config-file section
names.  Stated only to compare with the code's `get_available_profiles`. -/
def readProfiles_claimed (s : State) : Option (List String) :=
  let credNames : Option (List String) := match s.credentials with
    | none => some []
    | some ls => (parseINI ls).map fun (d : IniData) => d.sections.map Prod.fst
  let cfgNames : Option (List String) := match s.config with
    | none => some []
    | some ls =>
        (parseINI ls).map fun (d : IniData) =>
          (d.sections.map Prod.fst).map foldConfigSection
  match credNames, cfgNames with
  | some a, some b =>
      some (((a ++ b).dedup).insertionSort fun x y => pyStrLe x y = true)
  | _, _ => none

def c5State : State :=
  ⟨some [.sectionHeader "work", .kv "aws_access_key_id" "AKIA"],
   some [.sectionHeader "profile personal", .kv "region" "us-east-1"],
   none, none, none, none⟩

def c5ExampleState : State :=
  ⟨some [.sectionHeader "default", .kv "aws_access_key_id" "D",
         .sectionHeader "work", .kv "aws_access_key_id" "W",
         .sectionHeader "personal", .kv "aws_access_key_id" "P"],
   some [.sectionHeader "default", .kv "region" "us-east-1",
         .sectionHeader "profile work", .kv "region" "us-east-1",
         .sectionHeader "profile personal", .kv "region" "us-east-1"],
   none, none, none, none⟩

/-- Keys already in the image of `optionxform` (`str.lower`). -/
def lowerFixed (kvs : List (String × String)) : Prop :=
  ∀ p ∈ kvs, pyLower p.1 = p.1

/-- Well-formedness of parsed INI data, as established by every successful
`configparser.read`: section names are distinct and none is the reserved
`DEFAULT`; within each section (and within `DEFAULT`) keys are distinct and
lower-case. -/
structure IniWF (d : IniData) : Prop where
  sections_nodup : (d.sections.map Prod.fst).Nodup
  sections_noDefault : "DEFAULT" ∉ d.sections.map Prod.fst
  keys_nodup : ∀ sec ∈ d.sections, (sec.2.map Prod.fst).Nodup
  keys_lower : ∀ sec ∈ d.sections, lowerFixed sec.2
  defaults_nodup : (d.defaults.map Prod.fst).Nodup
  defaults_lower : lowerFixed d.defaults

/-- The parser-state invariant maintained by `parseStep`. -/
structure PWF (st : PState) : Prop where
  done_nodup : (st.done.map Prod.fst).Nodup
  done_noDefault : "DEFAULT" ∉ st.done.map Prod.fst
  cur_fresh : ∀ c, st.cur = some c → c ≠ "DEFAULT" → c ∉ st.done.map Prod.fst
  done_keys_nodup : ∀ sec ∈ st.done, (sec.2.map Prod.fst).Nodup
  done_keys_lower : ∀ sec ∈ st.done, lowerFixed sec.2
  cur_nodup : (st.curKVs.map Prod.fst).Nodup
  cur_lower : lowerFixed st.curKVs
  defaults_nodup : (st.defaults.map Prod.fst).Nodup
  defaults_lower : lowerFixed st.defaults

/-- The raw lines of one section of a registry file: its header and
everything up to the next header. -/
def rawSectionLines (ls : List IniLine) (sec : String) : List IniLine :=
  match ls.dropWhile fun l => decide (l ≠ IniLine.sectionHeader sec) with
  | [] => []
  | h :: t => h :: t.takeWhile fun l => match l with
      | .sectionHeader _ => false
      | _ => true

def c3Creds : List IniLine :=
  [.sectionHeader "work", .kv "aws_access_key_id" "AKIAWORK",
   .sectionHeader "personal", .comment "# keep this comment",
   .kv "aws_access_key_id" "AKIAPERS"]

def c3State : State := ⟨some c3Creds, none, none, none, none, none⟩

def c3CredsAfter : List IniLine :=
  [.sectionHeader "personal", .kv "aws_access_key_id" "AKIAPERS", .blank]

def c3Data : IniData :=
  ⟨[], [("work", [("aws_access_key_id", "AKIAWORK")]),
        ("personal", [("aws_access_key_id", "AKIAPERS")])]⟩

def c4DelState : State :=
  ⟨some [.sectionHeader "work", .kv "aws_access_key_id" "AK"],
   none, none, none, none, none⟩

def c4DelAfter : State :=
  ⟨some [], none,
   some [.sectionHeader "work", .kv "aws_access_key_id" "AK"],
   none, none, none⟩

def c4CreState : State :=
  ⟨some [.sectionHeader "old", .kv "aws_access_key_id" "OK"],
   some [.sectionHeader "profile old", .kv "region" "r"],
   none, none, none, none⟩

def c4CreAfter : State :=
  ⟨some [.sectionHeader "old", .kv "aws_access_key_id" "OK", .blank,
         .sectionHeader "new", .kv "aws_access_key_id" "AK2",
         .kv "aws_secret_access_key" "SK2", .blank],
   some [.sectionHeader "profile old", .kv "region" "r", .blank,
         .sectionHeader "profile new", .kv "region" "us-east-1",
         .kv "output" "json", .blank],
   some [.sectionHeader "old", .kv "aws_access_key_id" "OK"],
   some [.sectionHeader "profile old", .kv "region" "r"],
   none, none⟩

/-! ## General lemmas -/

theorem get_available_profiles_eq_some (s : State) (h : readableB s = true) :
    ∃ ps, get_available_profiles s = some ps := by
  unfold readableB at h
  unfold get_available_profiles
  cases hc : s.credentials with
  | none => exact ⟨[], rfl⟩
  | some ls =>
      rw [hc] at h
      rcases Option.isSome_iff_exists.mp h with ⟨d, hd⟩
      exact ⟨(profileNames d).insertionSort fun a b => pyStrLe a b = true, by simp [hd]⟩

/-! ## C1: deleting the default profile is refused without touching anything -/

/-- C1: `removeProfile("default")` reports failure and changes nothing:
`delete_profile` returns `False` from its very first check (cli.py:255-258),
so both registry files, both backup files, and the environment are exactly
as before the call. -/
theorem removeProfile_default_refused (s : State) (confirm : String) :
    delete_profile s "default" confirm = some (false, s) := by
  unfold delete_profile
  simp

/-! ## C2: any non-affirmative confirmation aborts with no side effects -/

/-- C2: for every profile name, whenever the confirmation answer is not the
affirmative token (`'yes'` after stripping whitespace and lower-casing,
cli.py:268-272), `delete_profile` returns `False` with the state unchanged —
the confirmation gate sits before the backups and before any file write.
(`readableB` scopes the statement to registries `configparser` can read;
on an unreadable file the call raises instead of returning.) -/
theorem removeProfile_unconfirmed_no_effect (s : State) (name confirm : String)
    (hread : readableB s = true) (hconf : pyLower (pyStrip confirm) ≠ "yes") :
    delete_profile s name confirm = some (false, s) := by
  unfold delete_profile
  by_cases hd : name = "default"
  · simp [hd]
  · obtain ⟨ps, hps⟩ := get_available_profiles_eq_some s hread
    rw [if_neg hd, hps]
    by_cases hm : name ∈ ps
    · simp [hm, hconf]
    · simp [hm]

/-- Witness for C2 at a concrete registry and the answer `"no"`. -/
theorem removeProfile_unconfirmed_no_effect_witness :
    readableB c2State = true ∧ pyLower (pyStrip "no") ≠ "yes" ∧
      delete_profile c2State "work" "no" = some (false, c2State) :=
  ⟨by decide, by decide,
    removeProfile_unconfirmed_no_effect c2State "work" "no" (by decide) (by decide)⟩

/-! ## C6: exceeding the 10-second bound yields the distinct Timeout kind -/

/-- C6: the identity validator runs the external process under
`timeout=10` (cli.py:60-65); any behaviour needing more than 10 seconds
makes `get_account_info` return the kind `"Timeout"` — regardless of the
exit code, output, or stderr the process would eventually have produced —
and that kind is distinct from `"Invalid"` and from the generic `"Error"`. -/
theorem validator_timeout_kind (profile : String) (d : Nat) (e : Int)
    (o : Option (Option String × Option String)) (r : String) (h : 10 < d) :
    get_account_info profile (.runs d e o r) =
      ("Timeout", "AWS call timed out (>10s)") ∧
    ("Timeout" : String) ≠ "Invalid" ∧ ("Timeout" : String) ≠ "Error" := by
  refine ⟨?_, by decide, by decide⟩
  unfold get_account_info runProc
  simp [h]

/-- Witness for C6 at an 11-second run that would have exited 0. -/
theorem validator_timeout_kind_witness :
    10 < 11 ∧
      (get_account_info "work" (.runs 11 0 (some (some "1", some "a")) "") =
        ("Timeout", "AWS call timed out (>10s)") ∧
      ("Timeout" : String) ≠ "Invalid" ∧ ("Timeout" : String) ≠ "Error") :=
  ⟨by decide, validator_timeout_kind "work" 11 0 (some (some "1", some "a")) "" (by decide)⟩

/-! ## C8: a missing credentials file degrades to an empty registry -/

/-- C8: when the credentials file does not exist, `get_available_profiles`
returns the empty registry (cli.py:35-38) instead of raising, printing the
missing-file report and the `aws configure` remediation hint, and `list`
reports zero profiles with its own creation hint — no crash on any path. -/
theorem missing_credentials_file_no_crash (s : State) (proc : String → ProcBehavior)
    (h : s.credentials = none) :
    get_available_profiles s = some [] ∧
    get_available_profiles_msgs s = [.noCredentialsFile, .runAwsConfigureHint] ∧
    list_profiles_msgs s proc =
      some [.noCredentialsFile, .runAwsConfigureHint, .noProfilesFound, .createProfileHint] := by
  refine ⟨?_, ?_, ?_⟩ <;>
    simp [get_available_profiles, get_available_profiles_msgs, list_profiles_msgs, h]

/-- Witness for C8 on the empty home directory. -/
theorem missing_credentials_file_no_crash_witness :
    c8State.credentials = none ∧
      (get_available_profiles c8State = some [] ∧
      get_available_profiles_msgs c8State = [.noCredentialsFile, .runAwsConfigureHint] ∧
      list_profiles_msgs c8State (fun _ => .missing) =
        some [.noCredentialsFile, .runAwsConfigureHint, .noProfilesFound,
          .createProfileHint]) :=
  ⟨rfl, missing_credentials_file_no_crash c8State (fun _ => .missing) rfl⟩

/-! ## C9: current-profile resolution -/

/-- C9 counterexample: with no environment override and the external tool
reporting `work` as active, the code returns `"default"` directly
(cli.py:31 is `os.environ.get('AWS_PROFILE', 'default')`) — it never
consults the external tool, so it differs from the claimed resolution. -/
theorem current_profile_ignores_external_tool :
    get_current_profile c9State = "default" ∧
    getCurrentProfile_claimed c9State = "work" ∧
    get_current_profile c9State ≠ getCurrentProfile_claimed c9State := by decide

/-- C9 amended: `get_current_profile` returns the environment override when
present and otherwise the fixed string `"default"`; it is independent of
anything the external identity tool would report. -/
theorem current_profile_env_or_default :
    (∀ (s : State) (v : String), s.awsProfile = some v → get_current_profile s = v) ∧
    (∀ s : State, s.awsProfile = none → get_current_profile s = "default") ∧
    (∀ (s : State) (t : Option String),
      get_current_profile { s with externalToolProfile := t } = get_current_profile s) := by
  refine ⟨?_, ?_, ?_⟩
  · intro s v h; simp [get_current_profile, h]
  · intro s h; simp [get_current_profile, h]
  · intro s t; rfl

/-- Witness for C9's amended statement at concrete states. -/
theorem current_profile_env_or_default_witness :
    get_current_profile ⟨none, none, none, none, some "work", none⟩ = "work" ∧
    get_current_profile c8State = "default" ∧
    get_current_profile { c8State with externalToolProfile := some "work" } =
      get_current_profile c8State :=
  ⟨current_profile_env_or_default.1 _ "work" rfl,
   current_profile_env_or_default.2.1 c8State rfl,
   current_profile_env_or_default.2.2 c8State (some "work")⟩

/-! ## C10: switching to the already-current profile skips validation -/

/-- C10: when the requested profile exists and already equals the current
profile, `switch_profile` returns success immediately (cli.py:474-479),
with the state unchanged and without ever invoking the identity validator
`get_account_info` — for every behaviour `p` the external process could
have had, including invalid or expired credentials. -/
theorem switch_to_current_skips_validator (s : State) (name : String)
    (shell : Bool) (p : ProcBehavior) (ps : List String)
    (h1 : get_available_profiles s = some ps) (h2 : name ∈ ps)
    (h3 : get_current_profile s = name) :
    switch_profile s name shell p = some (true, s, false) := by
  unfold switch_profile
  rw [h1]
  simp [h2, h3]

/-- Witness for C10: the current profile `work` with an external process
that would report invalid credentials; the validator is still skipped. -/
theorem switch_to_current_skips_validator_witness :
    get_available_profiles c10State = some ["work"] ∧ "work" ∈ ["work"] ∧
    get_current_profile c10State = "work" ∧
    switch_profile c10State "work" false (.runs 1 255 none "error") =
      some (true, c10State, false) :=
  ⟨by decide, by decide, by decide,
   switch_to_current_skips_validator c10State "work" false (.runs 1 255 none "error")
     ["work"] (by decide) (by decide) (by decide)⟩

/-! ## C7: username extraction takes the text after the last separator -/

theorem splitOnChar_ne_nil (c : Char) (l : List Char) : splitOnChar c l ≠ [] := by
  induction l with
  | nil => simp [splitOnChar]
  | cons x xs ih =>
      unfold splitOnChar
      by_cases h : x = c
      · simp [h]
      · rw [if_neg h]
        cases hs : splitOnChar c xs with
        | nil => exact absurd hs ih
        | cons a t => simp [List.modifyHead]

theorem splitOnChar_of_not_mem {c : Char} {l : List Char} (h : c ∉ l) :
    splitOnChar c l = [l] := by
  induction l with
  | nil => rfl
  | cons x xs ih =>
      have hx : x ≠ c := fun he => h (he ▸ List.mem_cons_self x xs)
      have hxs : c ∉ xs := fun hm => h (List.mem_cons_of_mem x hm)
      unfold splitOnChar
      rw [if_neg hx, ih hxs]
      rfl

theorem splitOnChar_length_two {c : Char} {l : List Char} (h : c ∈ l) :
    2 ≤ (splitOnChar c l).length := by
  induction l with
  | nil => cases h
  | cons x xs ih =>
      unfold splitOnChar
      by_cases hx : x = c
      · rw [if_pos hx]
        have h1 : splitOnChar c xs ≠ [] := splitOnChar_ne_nil c xs
        have h2 : 1 ≤ (splitOnChar c xs).length := by
          cases hs : splitOnChar c xs with
          | nil => exact absurd hs h1
          | cons a t => simp
        simp only [List.length_cons]
        omega
      · have hm : c ∈ xs := by
          rcases List.mem_cons.mp h with h1 | h1
          · exact absurd h1.symm hx
          · exact h1
        rw [if_neg hx]
        cases hs : splitOnChar c xs with
        | nil => exact absurd hs (splitOnChar_ne_nil c xs)
        | cons a t =>
            have := ih hm
            rw [hs] at this
            simpa [List.modifyHead] using this

theorem takeWhile_append_all {α : Type} {p : α → Bool} {l₁ : List α} (l₂ : List α)
    (h : ∀ e ∈ l₁, p e = true) :
    (l₁ ++ l₂).takeWhile p = l₁ ++ l₂.takeWhile p := by
  induction l₁ with
  | nil => rfl
  | cons a t ih =>
      have ha := h a (List.mem_cons_self a t)
      simp [List.takeWhile_cons, ha, ih (fun e he => h e (List.mem_cons_of_mem a he))]

theorem takeWhile_append_stop {α : Type} {p : α → Bool} {l₁ : List α} (l₂ : List α)
    (h : ∃ e ∈ l₁, p e = false) :
    (l₁ ++ l₂).takeWhile p = l₁.takeWhile p := by
  induction l₁ with
  | nil => rcases h with ⟨e, he, _⟩; cases he
  | cons a t ih =>
      by_cases hpa : p a = true
      · rcases h with ⟨e, he, hpe⟩
        rcases List.mem_cons.mp he with rfl | he'
        · rw [hpa] at hpe; cases hpe
        · simp [List.takeWhile_cons, hpa, ih ⟨e, he', hpe⟩]
      · have hf : p a = false := Bool.eq_false_iff.mpr hpa
        simp [List.takeWhile_cons, hf]

theorem afterLastSep_cons_of_mem {c : Char} {xs : List Char} (x : Char) (h : c ∈ xs) :
    afterLastSep c (x :: xs) = afterLastSep c xs := by
  unfold afterLastSep
  rw [List.reverse_cons, takeWhile_append_stop]
  exact ⟨c, List.mem_reverse.mpr h, by simp⟩

theorem afterLastSep_head {c : Char} {xs : List Char} (h : c ∉ xs) :
    afterLastSep c (c :: xs) = xs := by
  unfold afterLastSep
  rw [List.reverse_cons, takeWhile_append_all]
  · simp
  · intro e he
    have : e ≠ c := fun hec => h (hec ▸ List.mem_reverse.mp he)
    simpa using this

theorem getLastD_modifyHead_of_two {α : Type} (f : α → α) (d : α)
    (l : List α) (h : 2 ≤ l.length) :
    (l.modifyHead f).getLastD d = l.getLastD d := by
  match l with
  | [] => simp at h
  | [a] => simp at h
  | a :: b :: t => simp [List.modifyHead, List.getLastD_cons]

theorem getLastD_splitOnChar {c : Char} {l : List Char} (h : c ∈ l) :
    (splitOnChar c l).getLastD [] = afterLastSep c l := by
  induction l with
  | nil => cases h
  | cons x xs ih =>
      by_cases hx : x = c
      · subst hx
        unfold splitOnChar
        rw [if_pos rfl, List.getLastD_cons]
        by_cases hm : x ∈ xs
        · rw [ih hm, afterLastSep_cons_of_mem x hm]
        · rw [splitOnChar_of_not_mem hm]
          simp [afterLastSep_head hm, List.getLastD_cons]
      · have hm : c ∈ xs := by
          rcases List.mem_cons.mp h with h1 | h1
          · exact absurd h1.symm hx
          · exact h1
        unfold splitOnChar
        rw [if_neg hx,
          getLastD_modifyHead_of_two _ _ _ (splitOnChar_length_two hm),
          ih hm, afterLastSep_cons_of_mem x hm]

/-- C7: `extract_username` returns the text after the last `/` when the
principal contains `/`, else the text after the last `:` when it contains
`:`, else the principal unchanged — together with the three concrete
examples from the specification. -/
theorem extract_username_spec :
    (∀ arn : List Char,
        extract_username arn =
          if '/' ∈ arn then afterLastSep '/' arn
          else if ':' ∈ arn then afterLastSep ':' arn
          else arn) ∧
    extract_username "arn:aws:iam::123456789012:user/testuser".toList =
      "testuser".toList ∧
    extract_username
        "arn:aws:sts::123456789012:assumed-role/role-name/session-name".toList =
      "session-name".toList ∧
    extract_username "simple".toList = "simple".toList := by
  refine ⟨?_, by decide, by decide, by decide⟩
  intro arn
  unfold extract_username
  by_cases h1 : '/' ∈ arn
  · rw [if_pos h1, if_pos h1, getLastD_splitOnChar h1]
  · rw [if_neg h1, if_neg h1]
    by_cases h2 : ':' ∈ arn
    · rw [if_pos h2, if_pos h2, getLastD_splitOnChar h2]
    · rw [if_neg h2, if_neg h2]

/-! ## The executable string comparison coincides with `String ≤` -/

theorem charListLe_iff : ∀ as bs : List Char, charListLe as bs = true ↔ ¬ bs < as
  | [], [] => by
      constructor
      · intro _ h; cases h
      · intro _; rfl
  | [], b :: bs => by
      constructor
      · intro _ h; cases h
      · intro _; rfl
  | a :: as, [] => by
      constructor
      · intro h; cases h
      · intro h; exact absurd List.Lex.nil h
  | a :: as, b :: bs => by
      unfold charListLe
      by_cases hab : a = b
      · subst hab
        rw [if_pos rfl, charListLe_iff as bs]
        constructor
        · intro h hlt
          cases hlt with
          | cons h3 => exact h h3
          | rel h1 => exact absurd h1 (lt_irrefl a)
        · intro h hlt
          exact h (List.Lex.cons hlt)
      · rw [if_neg hab]
        simp only [decide_eq_true_eq]
        constructor
        · intro h hlt
          cases hlt with
          | cons h3 => exact absurd rfl hab
          | rel h1 => exact absurd h (asymm h1)
        · intro h
          rcases lt_trichotomy a b with h1 | h1 | h1
          · exact h1
          · exact absurd h1 hab
          · exact absurd (List.Lex.rel h1) h

theorem pyStrLe_iff (a b : String) : pyStrLe a b = true ↔ a ≤ b := by
  rw [pyStrLe, charListLe_iff]
  constructor
  · intro h hba
    exact h (String.lt_iff_toList_lt.mp hba)
  · intro h hba
    exact h (String.lt_iff_toList_lt.mpr hba)

theorem pyStrLe_total : IsTotal String fun a b => pyStrLe a b = true :=
  ⟨fun a b => by simp only [pyStrLe_iff]; exact le_total a b⟩

theorem pyStrLe_trans : IsTrans String fun a b => pyStrLe a b = true :=
  ⟨fun a b c h1 h2 => by
    simp only [pyStrLe_iff] at h1 h2 ⊢
    exact le_trans h1 h2⟩

/-! ## C5: what readProfiles actually enumerates -/

/-- C5 counterexample: with credentials section `work` and config section
`profile personal`, the code's `get_available_profiles` returns only
`["work"]` — it never opens the config file (cli.py:33-49 reads only
`self.credentials_path`) — while the claimed unified registry would be
`["personal", "work"]`. -/
theorem readProfiles_ignores_config_sections :
    get_available_profiles c5State = some ["work"] ∧
    readProfiles_claimed c5State = some ["personal", "work"] ∧
    get_available_profiles c5State ≠ readProfiles_claimed c5State := by decide

/-- C5 amended: `readProfiles` enumerates the credentials file's section
names only (plus `default` when the `DEFAULT` section defines
`aws_access_key_id`), sorted lexicographically ascending; the config file
is never consulted.  The specification's end-to-end example still holds
because its config sections mirror its credentials sections: credentials
`default`/`work`/`personal` yield exactly
`["default", "personal", "work"]`. -/
theorem readProfiles_credentials_only_sorted :
    (∀ (s : State) (cfg : Option (List IniLine)),
        get_available_profiles { s with config := cfg } = get_available_profiles s) ∧
    (∀ (s : State) (ps : List String),
        get_available_profiles s = some ps → ps.Sorted (· ≤ ·)) ∧
    get_available_profiles c5ExampleState = some ["default", "personal", "work"] := by
  refine ⟨fun s cfg => rfl, ?_, by decide⟩
  intro s ps h
  unfold get_available_profiles at h
  cases hc : s.credentials with
  | none =>
      rw [hc] at h
      cases h
      exact List.sorted_nil
  | some ls =>
      rw [hc] at h
      dsimp only at h
      cases hd : parseINI ls with
      | none => rw [hd] at h; simp at h
      | some d =>
          rw [hd] at h
          simp only [Option.map_some', Option.some.injEq] at h
          have hps : ps = (profileNames d).insertionSort fun a b => pyStrLe a b = true :=
            h.symm
          rw [hps]
          haveI := pyStrLe_total
          haveI := pyStrLe_trans
          exact (List.sorted_insertionSort _ (profileNames d)).imp
            fun hr => (pyStrLe_iff _ _).mp hr

/-- Witness for C5's amended statement at concrete states. -/
theorem readProfiles_credentials_only_sorted_witness :
    get_available_profiles { c5State with config := none } =
      get_available_profiles c5State ∧
    (get_available_profiles c5State = some ["work"] →
      (["work"] : List String).Sorted (· ≤ ·)) :=
  ⟨readProfiles_credentials_only_sorted.1 c5State none,
   readProfiles_credentials_only_sorted.2.1 c5State ["work"]⟩

/-! ## C3: the configparser round-trip -/

theorem toLower_toLower (c : Char) : c.toLower.toLower = c.toLower := by
  unfold Char.toLower
  by_cases h : c.toNat ≥ 65 ∧ c.toNat ≤ 90
  · rw [if_pos h]
    have hv : (c.toNat + 32).isValidChar := by left; omega
    have ht : (Char.ofNat (c.toNat + 32)).toNat = c.toNat + 32 := by
      rw [Char.ofNat, dif_pos hv]; rfl
    rw [ht, if_neg (by omega)]
  · rw [if_neg h, if_neg h]

theorem pyLower_pyLower (s : String) : pyLower (pyLower s) = pyLower s := by
  unfold pyLower
  simp only [List.map_map]
  congr 1
  exact List.map_congr_left fun c _ => toLower_toLower c

theorem flushCur_map_fst (st : PState) (h : PWF st) :
    ((flushCur st).map Prod.fst).Nodup ∧ "DEFAULT" ∉ (flushCur st).map Prod.fst ∧
    (∀ sec ∈ flushCur st, (sec.2.map Prod.fst).Nodup) ∧
    (∀ sec ∈ flushCur st, lowerFixed sec.2) := by
  cases hc : st.cur with
  | none =>
      simp only [flushCur, hc]
      exact ⟨h.done_nodup, h.done_noDefault, h.done_keys_nodup, h.done_keys_lower⟩
  | some c =>
      by_cases hd : c = "DEFAULT"
      · simp only [flushCur, hc, if_pos hd]
        exact ⟨h.done_nodup, h.done_noDefault, h.done_keys_nodup, h.done_keys_lower⟩
      · simp only [flushCur, hc, if_neg hd]
        refine ⟨?_, ?_, ?_, ?_⟩
        · rw [List.map_append, List.nodup_append]
          refine ⟨h.done_nodup, List.nodup_singleton c, ?_⟩
          intro x hx hx1
          have hxc : x = c := List.mem_singleton.mp hx1
          subst hxc
          exact h.cur_fresh x hc hd hx
        · rw [List.map_append]
          intro hm
          rcases List.mem_append.mp hm with hm | hm
          · exact h.done_noDefault hm
          · exact hd (List.mem_singleton.mp hm).symm
        · intro sec hs
          rcases List.mem_append.mp hs with hs | hs
          · exact h.done_keys_nodup sec hs
          · rcases List.mem_singleton.mp hs with rfl
            exact h.cur_nodup
        · intro sec hs
          rcases List.mem_append.mp hs with hs | hs
          · exact h.done_keys_lower sec hs
          · rcases List.mem_singleton.mp hs with rfl
            exact h.cur_lower

theorem parseStep_PWF {st st' : PState} {l : IniLine} (h : PWF st)
    (hs : parseStep st l = some st') : PWF st' := by
  cases l with
  | comment t => exact (Option.some.inj hs) ▸ h
  | blank => exact (Option.some.inj hs) ▸ h
  | sectionHeader n =>
      have hf := flushCur_map_fst st h
      dsimp only [parseStep] at hs
      by_cases hd : n = "DEFAULT"
      · rw [if_pos hd] at hs
        cases Option.some.inj hs
        exact ⟨hf.1, hf.2.1, fun c hc hcd => by cases hc; exact absurd rfl hcd,
          hf.2.2.1, hf.2.2.2, List.nodup_nil, fun p hp => absurd hp (List.not_mem_nil p),
          h.defaults_nodup, h.defaults_lower⟩
      · rw [if_neg hd] at hs
        by_cases hm : n ∈ (flushCur st).map Prod.fst
        · rw [if_pos hm] at hs; cases hs
        · rw [if_neg hm] at hs
          cases Option.some.inj hs
          exact ⟨hf.1, hf.2.1, fun c hc _ => by cases hc; exact hm,
            hf.2.2.1, hf.2.2.2, List.nodup_nil, fun p hp => absurd hp (List.not_mem_nil p),
            h.defaults_nodup, h.defaults_lower⟩
  | kv k v =>
      cases hc : st.cur with
      | none =>
          simp only [parseStep, hc] at hs
          exact Option.noConfusion hs
      | some c =>
          simp only [parseStep, hc] at hs
          by_cases hd : c = "DEFAULT"
          · rw [if_pos hd] at hs
            by_cases hm : pyLower k ∈ st.defaults.map Prod.fst
            · rw [if_pos hm] at hs; cases hs
            · rw [if_neg hm] at hs
              cases Option.some.inj hs
              refine ⟨h.done_nodup, h.done_noDefault, ?_, h.done_keys_nodup,
                h.done_keys_lower, h.cur_nodup, h.cur_lower, ?_, ?_⟩
              · intro c' hc' hcd'
                exact h.cur_fresh c' (hc ▸ hc') hcd'
              · rw [List.map_append, List.nodup_append]
                refine ⟨h.defaults_nodup, List.nodup_singleton _, fun x hx hx1 => ?_⟩
                rw [List.mem_singleton.mp hx1] at hx
                exact hm hx
              · intro p hp
                rcases List.mem_append.mp hp with hp | hp
                · exact h.defaults_lower p hp
                · rcases List.mem_singleton.mp hp with rfl
                  exact pyLower_pyLower k
          · rw [if_neg hd] at hs
            by_cases hm : pyLower k ∈ st.curKVs.map Prod.fst
            · rw [if_pos hm] at hs; cases hs
            · rw [if_neg hm] at hs
              cases Option.some.inj hs
              refine ⟨h.done_nodup, h.done_noDefault, ?_, h.done_keys_nodup,
                h.done_keys_lower, ?_, ?_, h.defaults_nodup, h.defaults_lower⟩
              · intro c' hc' hcd'
                exact h.cur_fresh c' (hc ▸ hc') hcd'
              · rw [List.map_append, List.nodup_append]
                refine ⟨h.cur_nodup, List.nodup_singleton _, fun x hx hx1 => ?_⟩
                rw [List.mem_singleton.mp hx1] at hx
                exact hm hx
              · intro p hp
                rcases List.mem_append.mp hp with hp | hp
                · exact h.cur_lower p hp
                · rcases List.mem_singleton.mp hp with rfl
                  exact pyLower_pyLower k

theorem foldlM_parseStep_PWF :
    ∀ (ls : List IniLine) (st st' : PState), PWF st →
      ls.foldlM parseStep st = some st' → PWF st'
  | [], st, st', h, hf => by
      simp only [List.foldlM_nil] at hf
      exact (Option.some.inj hf) ▸ h
  | l :: ls, st, st', h, hf => by
      simp only [List.foldlM_cons] at hf
      cases hm : parseStep st l with
      | none => rw [hm] at hf; cases hf
      | some st1 =>
          rw [hm] at hf
          exact foldlM_parseStep_PWF ls st1 st' (parseStep_PWF h hm) hf

theorem parseINI_WF {ls : List IniLine} {d : IniData} (h : parseINI ls = some d) :
    IniWF d := by
  unfold parseINI at h
  cases hf : ls.foldlM parseStep ⟨none, [], [], []⟩ with
  | none => rw [hf] at h; cases h
  | some st =>
      rw [hf] at h
      simp only [Option.map_some', Option.some.injEq] at h
      have hwf : PWF st := by
        refine foldlM_parseStep_PWF ls ⟨none, [], [], []⟩ st ?_ hf
        exact ⟨List.nodup_nil, List.not_mem_nil _, fun c hc _ => Option.noConfusion hc,
          fun p hp => absurd hp (List.not_mem_nil p),
          fun p hp => absurd hp (List.not_mem_nil p),
          List.nodup_nil, fun p hp => absurd hp (List.not_mem_nil p),
          List.nodup_nil, fun p hp => absurd hp (List.not_mem_nil p)⟩
      have hff := flushCur_map_fst st hwf
      rw [← h]
      exact ⟨hff.1, hff.2.1, hff.2.2.1, hff.2.2.2, hwf.defaults_nodup, hwf.defaults_lower⟩

theorem some_bind_eq {α β : Type} (a : α) (f : α → Option β) :
    (some a >>= f) = f a := rfl

theorem foldlM_writeKVLines (c : String) (hc : c ≠ "DEFAULT") :
    ∀ (kvs acc : List (String × String))
      (done : List (String × List (String × String))) (defs : List (String × String)),
      ((acc ++ kvs).map Prod.fst).Nodup → lowerFixed kvs →
      (writeKVLines kvs).foldlM parseStep ⟨some c, acc, done, defs⟩ =
        some ⟨some c, acc ++ kvs, done, defs⟩
  | [], acc, done, defs, _, _ => by simp [writeKVLines]
  | (k, v) :: rest, acc, done, defs, hnodup, hlower => by
      have hk : pyLower k = k := hlower (k, v) (List.mem_cons_self _ _)
      have hkacc : k ∉ acc.map Prod.fst := by
        rw [List.map_append, List.nodup_append] at hnodup
        intro hmm
        exact hnodup.2.2 hmm (by simp)
      have hstep : parseStep ⟨some c, acc, done, defs⟩ (.kv k v) =
          some ⟨some c, acc ++ [(k, v)], done, defs⟩ := by
        simp only [parseStep, hk, if_neg hc, if_neg hkacc]
      have hrest := foldlM_writeKVLines c hc rest (acc ++ [(k, v)]) done defs
        (by rwa [← List.append_cons])
        (fun p hp => hlower p (List.mem_cons_of_mem _ hp))
      simp only [writeKVLines, List.map_cons, List.foldlM_cons, hstep, some_bind_eq]
      simp only [writeKVLines] at hrest
      rw [hrest, ← List.append_cons]

theorem foldlM_writeKVLines_default :
    ∀ (kvs defs curKVs : List (String × String))
      (done : List (String × List (String × String))),
      ((defs ++ kvs).map Prod.fst).Nodup → lowerFixed kvs →
      (writeKVLines kvs).foldlM parseStep ⟨some "DEFAULT", curKVs, done, defs⟩ =
        some ⟨some "DEFAULT", curKVs, done, defs ++ kvs⟩
  | [], defs, curKVs, done, _, _ => by simp [writeKVLines]
  | (k, v) :: rest, defs, curKVs, done, hnodup, hlower => by
      have hk : pyLower k = k := hlower (k, v) (List.mem_cons_self _ _)
      have hkdefs : k ∉ defs.map Prod.fst := by
        rw [List.map_append, List.nodup_append] at hnodup
        intro hmm
        exact hnodup.2.2 hmm (by simp)
      have hstep : parseStep ⟨some "DEFAULT", curKVs, done, defs⟩ (.kv k v) =
          some ⟨some "DEFAULT", curKVs, done, defs ++ [(k, v)]⟩ := by
        simp [parseStep, hk, hkdefs]
      have hrest := foldlM_writeKVLines_default rest (defs ++ [(k, v)]) curKVs done
        (by rwa [← List.append_cons])
        (fun p hp => hlower p (List.mem_cons_of_mem _ hp))
      simp only [writeKVLines, List.map_cons, List.foldlM_cons, hstep, some_bind_eq]
      simp only [writeKVLines] at hrest
      rw [hrest, ← List.append_cons]

theorem foldlM_writeSectionLines (st : PState) (n : String)
    (kvs : List (String × String)) (hn : n ≠ "DEFAULT")
    (hfresh : n ∉ (flushCur st).map Prod.fst)
    (hnodup : (kvs.map Prod.fst).Nodup) (hlower : lowerFixed kvs) :
    (writeSectionLines (n, kvs)).foldlM parseStep st =
      some ⟨some n, kvs, flushCur st, st.defaults⟩ := by
  have hstep : parseStep st (.sectionHeader n) =
      some ⟨some n, [], flushCur st, st.defaults⟩ := by
    simp only [parseStep, if_neg hn, if_neg hfresh]
  simp only [writeSectionLines, List.foldlM_cons, hstep, some_bind_eq]
  rw [List.foldlM_append,
    foldlM_writeKVLines n hn kvs [] (flushCur st) st.defaults (by simpa) hlower]
  simp [parseStep]

theorem foldlM_sections :
    ∀ (ss : List (String × List (String × String))) (st : PState),
      ((flushCur st).map Prod.fst ++ ss.map Prod.fst).Nodup →
      "DEFAULT" ∉ ss.map Prod.fst →
      (∀ sec ∈ ss, (sec.2.map Prod.fst).Nodup) →
      (∀ sec ∈ ss, lowerFixed sec.2) →
      ∃ stf, (ss.flatMap writeSectionLines).foldlM parseStep st = some stf ∧
        flushCur stf = flushCur st ++ ss ∧ stf.defaults = st.defaults
  | [], st, _, _, _, _ => ⟨st, by simp, by simp, rfl⟩
  | (n, kvs) :: rest, st, hnodup, hdef, hkn, hkl => by
      have hn : n ≠ "DEFAULT" := fun he => hdef (by simp [he])
      have hfresh : n ∉ (flushCur st).map Prod.fst := by
        rw [List.nodup_append] at hnodup
        intro hm
        exact hnodup.2.2 hm (by simp)
      have hblock := foldlM_writeSectionLines st n kvs hn hfresh
        (hkn (n, kvs) (List.mem_cons_self _ _)) (hkl (n, kvs) (List.mem_cons_self _ _))
      have hflush1 : flushCur ⟨some n, kvs, flushCur st, st.defaults⟩ =
          flushCur st ++ [(n, kvs)] := by
        simp [flushCur, hn]
      obtain ⟨stf, h1, h2, h3⟩ := foldlM_sections rest
        ⟨some n, kvs, flushCur st, st.defaults⟩
        (by rw [hflush1]; simpa [List.append_assoc] using hnodup)
        (fun hm => hdef (List.mem_cons_of_mem _ hm))
        (fun sec hs => hkn sec (List.mem_cons_of_mem _ hs))
        (fun sec hs => hkl sec (List.mem_cons_of_mem _ hs))
      refine ⟨stf, ?_, ?_, h3⟩
      · rw [List.flatMap_cons, List.foldlM_append, hblock, some_bind_eq, h1]
      · rw [h2, hflush1, List.append_assoc, List.singleton_append]

theorem parseINI_writeINI {d : IniData} (h : IniWF d) :
    parseINI (writeINI d) = some d := by
  obtain ⟨ddefs, dsecs⟩ := d
  unfold parseINI writeINI
  by_cases hdef : ddefs = []
  · subst hdef
    rw [if_pos rfl, List.nil_append]
    obtain ⟨stf, h1, h2, h3⟩ := foldlM_sections dsecs ⟨none, [], [], []⟩
      (by simpa [flushCur] using h.sections_nodup) h.sections_noDefault
      h.keys_nodup h.keys_lower
    rw [h1, Option.map_some']
    have h2' : flushCur stf = dsecs := by simpa [flushCur] using h2
    rw [h2', h3]
  · rw [if_neg hdef]
    have hstep : parseStep ⟨none, [], [], []⟩ (.sectionHeader "DEFAULT") =
        some ⟨some "DEFAULT", [], [], []⟩ := by
      simp [parseStep, flushCur]
    simp only [writeSectionLines, List.cons_append, List.foldlM_cons, hstep,
      some_bind_eq, List.append_assoc]
    rw [List.foldlM_append,
      foldlM_writeKVLines_default ddefs [] [] [] (by simpa using h.defaults_nodup)
        h.defaults_lower,
      some_bind_eq]
    have hblank : parseStep ⟨some "DEFAULT", [], [], ddefs⟩ IniLine.blank =
        some ⟨some "DEFAULT", [], [], ddefs⟩ := rfl
    simp only [List.nil_append, List.foldlM_cons, hblank, some_bind_eq]
    obtain ⟨stf, h1, h2, h3⟩ := foldlM_sections dsecs
      ⟨some "DEFAULT", [], [], ddefs⟩
      (by simpa [flushCur] using h.sections_nodup) h.sections_noDefault
      h.keys_nodup h.keys_lower
    rw [h1, Option.map_some']
    have h2' : flushCur stf = dsecs := by simpa [flushCur] using h2
    have h3' : stf.defaults = ddefs := by simpa using h3
    rw [h2', h3']

theorem IniWF_removeSection {d : IniData} (h : IniWF d) (n : String) :
    IniWF (removeSection d n) := by
  have hsub : (removeSection d n).sections.Sublist d.sections :=
    List.filter_sublist _
  have hmapsub : ((removeSection d n).sections.map Prod.fst).Sublist
      (d.sections.map Prod.fst) := hsub.map Prod.fst
  exact ⟨h.sections_nodup.sublist hmapsub,
    fun hm => h.sections_noDefault (hmapsub.subset hm),
    fun sec hs => h.keys_nodup sec (hsub.subset hs),
    fun sec hs => h.keys_lower sec (hsub.subset hs),
    h.defaults_nodup, h.defaults_lower⟩

theorem find?_filter_ne {α : Type} (l : List (String × α)) (n m : String)
    (hm : m ≠ n) :
    (l.filter fun s => s.1 ≠ n).find? (fun s => s.1 = m) =
      l.find? fun s => s.1 = m := by
  induction l with
  | nil => rfl
  | cons a l ih =>
      by_cases ha : a.1 = n
      · have ham : a.1 ≠ m := fun he => hm (he.symm.trans ha)
        have h1 : List.filter (fun s => decide (s.1 ≠ n)) (a :: l) =
            List.filter (fun s => decide (s.1 ≠ n)) l := by
          rw [List.filter_cons, if_neg (by simpa using not_not_intro ha)]
        have h2 : List.find? (fun s => decide (s.1 = m)) (a :: l) =
            List.find? (fun s => decide (s.1 = m)) l :=
          List.find?_cons_of_neg _ (by simpa using ham)
        rw [h1, h2, ih]
      · have h1 : List.filter (fun s => decide (s.1 ≠ n)) (a :: l) =
            a :: List.filter (fun s => decide (s.1 ≠ n)) l := by
          rw [List.filter_cons, if_pos (by simpa using ha)]
        rw [h1]
        by_cases hb : a.1 = m
        · have h2 : List.find? (fun s => decide (s.1 = m)) (a :: l) = some a :=
            List.find?_cons_of_pos _ (by simpa using hb)
          have h3 : List.find? (fun s => decide (s.1 = m))
              (a :: List.filter (fun s => decide (s.1 ≠ n)) l) = some a :=
            List.find?_cons_of_pos _ (by simpa using hb)
          rw [h2, h3]
        · have h2 : List.find? (fun s => decide (s.1 = m)) (a :: l) =
              List.find? (fun s => decide (s.1 = m)) l :=
            List.find?_cons_of_neg _ (by simpa using hb)
          have h3 : List.find? (fun s => decide (s.1 = m))
              (a :: List.filter (fun s => decide (s.1 ≠ n)) l) =
              List.find? (fun s => decide (s.1 = m))
                (List.filter (fun s => decide (s.1 ≠ n)) l) :=
            List.find?_cons_of_neg _ (by simpa using hb)
          rw [h2, h3, ih]

theorem lookupSection_removeSection (d : IniData) (n m : String) (hm : m ≠ n) :
    lookupSection (removeSection d n) m = lookupSection d m := by
  unfold lookupSection removeSection
  rw [find?_filter_ne d.sections n m hm]

theorem lookupSection_removeSection_self (d : IniData) (n : String) :
    lookupSection (removeSection d n) n = none := by
  unfold lookupSection removeSection
  rw [List.find?_eq_none.mpr]
  · rfl
  · intro x hx
    have h1 : x.1 ≠ n := by simpa using List.of_mem_filter hx
    simpa using h1

theorem hasSection_iff (d : IniData) (n : String) :
    hasSection d n = true ↔ n ∈ d.sections.map Prod.fst := by
  unfold hasSection
  rw [List.any_eq_true]
  constructor
  · rintro ⟨x, hx, he⟩
    exact List.mem_map.mpr ⟨x, hx, by simpa using he⟩
  · rintro hm
    rcases List.mem_map.mp hm with ⟨x, hx, he⟩
    exact ⟨x, hx, by simpa using he⟩

theorem removeSection_of_not_has {d : IniData} {n : String}
    (h : hasSection d n = false) : removeSection d n = d := by
  unfold removeSection
  have : d.sections.filter (fun s => s.1 ≠ n) = d.sections := by
    rw [List.filter_eq_self]
    intro a ha
    simp only [decide_eq_true_eq]
    intro he
    have h2 : hasSection d n = true :=
      (hasSection_iff d n).mpr (List.mem_map.mpr ⟨a, ha, he⟩)
    rw [h] at h2
    cases h2
  rw [this]

theorem mem_profileNames_sections {d : IniData} {n : String}
    (h : n ∈ profileNames d) (hd : n ≠ "default") :
    n ∈ d.sections.map Prod.fst := by
  unfold profileNames at h
  dsimp only at h
  by_cases h1 : "default" ∈ d.sections.map Prod.fst
  · rwa [if_pos h1] at h
  · rw [if_neg h1] at h
    by_cases h2 : hasDefaultOption d "aws_access_key_id" = true
    · rw [if_pos h2] at h
      rcases List.mem_cons.mp h with h3 | h3
      · exact absurd h3 hd
      · exact h3
    · rw [if_neg h2] at h
      exact h

theorem removeFromFile_of_has {ls : List IniLine} {d : IniData}
    (hparse : parseINI ls = some d) {sec : String} (hs : hasSection d sec = true) :
    removeFromFile (some ls) sec = some (some (writeINI (removeSection d sec))) := by
  simp [removeFromFile, hparse, hs]

theorem removeFromFile_of_not_has {ls : List IniLine} {d : IniData}
    (hparse : parseINI ls = some d) {sec : String} (hs : hasSection d sec = false) :
    removeFromFile (some ls) sec = some (some ls) := by
  simp [removeFromFile, hparse, hs]

/-- The inner behaviour of `hasSection` never holds for hasSection = false needed as Prop. -/
theorem hasSection_false_of_not_mem {d : IniData} {n : String}
    (h : n ∉ d.sections.map Prod.fst) : hasSection d n = false := by
  cases hh : hasSection d n with
  | false => rfl
  | true => exact absurd ((hasSection_iff d n).mp hh) h

theorem delete_profile_shape (s : State) (name confirm : String)
    (ls : List IniLine) (d : IniData)
    (hcred : s.credentials = some ls) (hparse : parseINI ls = some d)
    (hname : name ≠ "default")
    (hmem' : name ∈ (profileNames d).insertionSort fun a b => pyStrLe a b = true)
    (hconf : pyLower (pyStrip confirm) = "yes")
    (hsec : hasSection d name = true)
    (cfg' : Option (List IniLine))
    (hcfg : removeFromFile s.config
        (if name = "default" then name else "profile " ++ name) = some cfg') :
    ∃ s', delete_profile s name confirm = some (true, s') ∧
      s'.credentials = some (writeINI (removeSection d name)) ∧
      s'.config = cfg' ∧
      s'.credentialsBackup = some ls ∧
      s'.configBackup = (if s.config.isSome then s.config else s.configBackup) := by
  have hav : get_available_profiles s =
      some ((profileNames d).insertionSort fun a b => pyStrLe a b = true) := by
    simp [get_available_profiles, hcred, hparse]
  have hrf := removeFromFile_of_has hparse hsec
  unfold delete_profile
  rw [if_neg hname, hav]
  dsimp only
  rw [if_neg (not_not_intro hmem'), if_neg (fun hne => hne hconf)]
  simp only [hcred, Option.isSome_some, eq_self_iff_true, if_true]
  rw [hrf]
  dsimp only
  rw [hcfg]
  dsimp only
  refine ⟨_, rfl, ?_, ?_, ?_, ?_⟩ <;> (split <;> split <;> rfl)

/-- C3 counterexample: deleting `work` from a credentials file whose
`personal` section carries a comment line succeeds, but the surviving
`personal` section is re-serialised without the comment
(`configparser.read` discards comments, and `delete_profile` writes the
parsed data back at cli.py:292-294), so its raw lines are not byte-identical
to before the call. -/
theorem removeProfile_not_byte_identical :
    (delete_profile c3State "work" "yes").map
        (fun r => (r.1, r.2.credentials)) = some (true, some c3CredsAfter) ∧
    rawSectionLines c3CredsAfter "personal" ≠ rawSectionLines c3Creds "personal" ∧
    IniLine.comment "# keep this comment" ∈ c3Creds ∧
    IniLine.comment "# keep this comment" ∉ c3CredsAfter := by decide

/-- C3 amended: for an existing non-default profile (with affirmative
confirmation, on registries `configparser` can read), `delete_profile`
succeeds, backs up the old credentials bytes, and rewrites each file so
that re-reading it yields exactly the old parsed data minus the deleted
section: the deleted section is gone and every other section's parsed
key/value content is unchanged.  Raw bytes of untouched sections are not
preserved (comments and blank lines are dropped and formatting normalised —
see the counterexample), which is the only respect in which the original
claim fails. -/
theorem removeProfile_removes_section_preserves_parsed
    (s : State) (name confirm : String) (ls : List IniLine) (d : IniData)
    (hcred : s.credentials = some ls) (hparse : parseINI ls = some d)
    (hname : name ≠ "default") (hmem : name ∈ profileNames d)
    (hconf : pyLower (pyStrip confirm) = "yes")
    (hcfgr : cfgReadableB s = true) :
    ∃ s', delete_profile s name confirm = some (true, s') ∧
      s'.credentialsBackup = some ls ∧
      (∃ ls', s'.credentials = some ls' ∧
        parseINI ls' = some (removeSection d name) ∧
        lookupSection (removeSection d name) name = none ∧
        (∀ m, m ≠ name → lookupSection (removeSection d name) m = lookupSection d m)) ∧
      (s.config = none → s'.config = none) ∧
      (∀ cs dc, s.config = some cs → parseINI cs = some dc →
        ∃ cs', s'.config = some cs' ∧
          parseINI cs' = some (removeSection dc ("profile " ++ name)) ∧
          ∀ m, m ≠ "profile " ++ name →
            lookupSection (removeSection dc ("profile " ++ name)) m =
              lookupSection dc m) := by
  have hmem' : name ∈ (profileNames d).insertionSort fun a b => pyStrLe a b = true :=
    (List.perm_insertionSort _ _).mem_iff.mpr hmem
  have hsec : hasSection d name = true :=
    (hasSection_iff d name).mpr (mem_profileNames_sections hmem hname)
  have hround := parseINI_writeINI (IniWF_removeSection (parseINI_WF hparse) name)
  have hifsec : (if name = "default" then name else "profile " ++ name) =
      "profile " ++ name := if_neg hname
  cases hcfgf : s.config with
  | none =>
      have hcfg : removeFromFile s.config
          (if name = "default" then name else "profile " ++ name) = some none := by
        rw [hcfgf]; rfl
      obtain ⟨s', h1, h2, h3, h4, h5⟩ :=
        delete_profile_shape s name confirm ls d hcred hparse hname hmem' hconf hsec
          none hcfg
      refine ⟨s', h1, h4, ⟨_, h2, hround, lookupSection_removeSection_self _ _,
        fun m hm => lookupSection_removeSection d name m hm⟩, fun _ => h3, ?_⟩
      intro cs dc hcs _
      cases hcs
  | some cs =>
      have hdc : ∃ dc, parseINI cs = some dc := by
        unfold cfgReadableB at hcfgr
        rw [hcfgf] at hcfgr
        exact Option.isSome_iff_exists.mp hcfgr
      obtain ⟨dc, hdc⟩ := hdc
      by_cases hs2 : hasSection dc ("profile " ++ name) = true
      · have hcfg : removeFromFile s.config
            (if name = "default" then name else "profile " ++ name) =
            some (some (writeINI (removeSection dc ("profile " ++ name)))) := by
          rw [hcfgf, hifsec]
          exact removeFromFile_of_has hdc hs2
        obtain ⟨s', h1, h2, h3, h4, h5⟩ :=
          delete_profile_shape s name confirm ls d hcred hparse hname hmem' hconf hsec
            _ hcfg
        refine ⟨s', h1, h4, ⟨_, h2, hround, lookupSection_removeSection_self _ _,
          fun m hm => lookupSection_removeSection d name m hm⟩, ?_, ?_⟩
        · intro hnone
          cases hnone
        · intro cs2 dc2 hcs2 hdc2
          cases hcs2
          rw [hdc] at hdc2
          cases hdc2
          exact ⟨_, h3, parseINI_writeINI (IniWF_removeSection (parseINI_WF hdc) _),
            fun m hm => lookupSection_removeSection dc _ m hm⟩
      · have hs2' : hasSection dc ("profile " ++ name) = false := by
          cases hh : hasSection dc ("profile " ++ name)
          · rfl
          · exact absurd hh hs2
        have hcfg : removeFromFile s.config
            (if name = "default" then name else "profile " ++ name) =
            some (some cs) := by
          rw [hcfgf, hifsec]
          exact removeFromFile_of_not_has hdc hs2'
        obtain ⟨s', h1, h2, h3, h4, h5⟩ :=
          delete_profile_shape s name confirm ls d hcred hparse hname hmem' hconf hsec
            _ hcfg
        refine ⟨s', h1, h4, ⟨_, h2, hround, lookupSection_removeSection_self _ _,
          fun m hm => lookupSection_removeSection d name m hm⟩, ?_, ?_⟩
        · intro hnone
          cases hnone
        · intro cs2 dc2 hcs2 hdc2
          cases hcs2
          rw [hdc] at hdc2
          cases hdc2
          rw [removeSection_of_not_has hs2']
          exact ⟨_, h3, hdc, fun m hm => rfl⟩

/-- Witness for C3's amended statement: deleting `work` from the concrete
two-section registry. -/
theorem removeProfile_removes_section_preserves_parsed_witness :
    ∃ s', delete_profile c3State "work" "yes" = some (true, s') ∧
      s'.credentialsBackup = some c3Creds ∧
      (∃ ls', s'.credentials = some ls' ∧
        parseINI ls' = some (removeSection c3Data "work") ∧
        lookupSection (removeSection c3Data "work") "work" = none ∧
        (∀ m, m ≠ "work" →
          lookupSection (removeSection c3Data "work") m = lookupSection c3Data m)) ∧
      (c3State.config = none → s'.config = none) ∧
      (∀ cs dc, c3State.config = some cs → parseINI cs = some dc →
        ∃ cs', s'.config = some cs' ∧
          parseINI cs' = some (removeSection dc ("profile " ++ "work")) ∧
          ∀ m, m ≠ "profile " ++ "work" →
            lookupSection (removeSection dc ("profile " ++ "work")) m =
              lookupSection dc m) :=
  removeProfile_removes_section_preserves_parsed c3State "work" "yes" c3Creds c3Data
    rfl (by decide) (by decide) (by decide) (by decide) (by decide)

/-! ## C4: a backup precedes every destructive write -/

theorem delete_profile_backup_disj (s : State) (name confirm : String) (b : Bool)
    (s' : State) (h : delete_profile s name confirm = some (b, s')) :
    s' = s ∨
      (s'.credentialsBackup =
          (if s.credentials.isSome then s.credentials else s.credentialsBackup) ∧
        s'.configBackup =
          (if s.config.isSome then s.config else s.configBackup)) := by
  unfold delete_profile at h
  dsimp only at h
  repeat' split at h
  all_goals first
    | exact Option.noConfusion h
    | (rw [Option.some.injEq, Prod.mk.injEq] at h
       exact Or.inl h.2.symm)
    | (rw [Option.some.injEq, Prod.mk.injEq] at h
       refine Or.inr ⟨?_, ?_⟩ <;> (rw [← h.2]; split <;> first | rfl | contradiction))

theorem create_profile_backup_disj (s : State)
    (n ov ak sk rg op : String) (t : ProcBehavior) (b : Bool) (s' : State)
    (h : create_profile s n ov ak sk rg op t = some (b, s')) :
    s' = s ∨
      (s'.credentialsBackup =
          (if s.credentials.isSome then s.credentials else s.credentialsBackup) ∧
        s'.configBackup =
          (if s.config.isSome then s.config else s.configBackup)) := by
  unfold create_profile at h
  dsimp only at h
  repeat' split at h
  all_goals first
    | exact Option.noConfusion h
    | (rw [Option.some.injEq, Prod.mk.injEq] at h
       exact Or.inl h.2.symm)
    | (rw [Option.some.injEq, Prod.mk.injEq] at h
       refine Or.inr ⟨?_, ?_⟩ <;> (rw [← h.2]; split <;> first | rfl | contradiction))

/-- C4: both mutating operations back up before any destructive write.  For
`delete_profile` and `create_profile` alike: whenever the operation returns
and has changed the on-disk content of a registry file that existed before
the call, the corresponding backup now holds exactly the pre-mutation
content of that file (the backups are taken at cli.py:192-201 and 274-284,
before any write).  The backup names are derived deterministically from the
file names by `Path.with_suffix`, giving the same two names on every
mutation — so a second mutation overwrites the previous backup instead of
accumulating new files. -/
theorem backup_before_destructive_write :
    (∀ (s : State) (name confirm : String) (b : Bool) (s' : State)
        (c : List IniLine),
        delete_profile s name confirm = some (b, s') →
        ((s.credentials = some c → s'.credentials ≠ some c →
            s'.credentialsBackup = some c) ∧
          (s.config = some c → s'.config ≠ some c → s'.configBackup = some c))) ∧
    (∀ (s : State) (n ov ak sk rg op : String) (t : ProcBehavior) (b : Bool)
        (s' : State) (c : List IniLine),
        create_profile s n ov ak sk rg op t = some (b, s') →
        ((s.credentials = some c → s'.credentials ≠ some c →
            s'.credentialsBackup = some c) ∧
          (s.config = some c → s'.config ≠ some c → s'.configBackup = some c))) ∧
    credentialsBackupName = "credentials.credentials.backup" ∧
    configBackupName = "config.config.backup" := by
  refine ⟨?_, ?_, by decide, by decide⟩
  · intro s name confirm b s' c h
    rcases delete_profile_backup_disj s name confirm b s' h with rfl | ⟨h1, h2⟩
    · exact ⟨fun hc hne => absurd hc hne, fun hc hne => absurd hc hne⟩
    · constructor
      · intro hc _
        rw [h1, hc]
        simp
      · intro hc _
        rw [h2, hc]
        simp
  · intro s n ov ak sk rg op t b s' c h
    rcases create_profile_backup_disj s n ov ak sk rg op t b s' h with rfl | ⟨h1, h2⟩
    · exact ⟨fun hc hne => absurd hc hne, fun hc hne => absurd hc hne⟩
    · constructor
      · intro hc _
        rw [h1, hc]
        simp
      · intro hc _
        rw [h2, hc]
        simp

/-- Witness for C4: one concrete deletion and one concrete creation, each
backing up the pre-mutation bytes of the files that existed. -/
theorem backup_before_destructive_write_witness :
    delete_profile c4DelState "work" "yes" = some (true, c4DelAfter) ∧
    c4DelAfter.credentialsBackup =
      some [.sectionHeader "work", .kv "aws_access_key_id" "AK"] ∧
    create_profile c4CreState "new" "" "AK2" "SK2" "" ""
        (.runs 1 0 (some (some "1", some "a")) "") = some (true, c4CreAfter) ∧
    c4CreAfter.credentialsBackup =
      some [.sectionHeader "old", .kv "aws_access_key_id" "OK"] ∧
    c4CreAfter.configBackup =
      some [.sectionHeader "profile old", .kv "region" "r"] :=
  ⟨by decide,
   (backup_before_destructive_write.1 c4DelState "work" "yes" true c4DelAfter
       [.sectionHeader "work", .kv "aws_access_key_id" "AK"] (by decide)).1
     rfl (by decide),
   by decide,
   (backup_before_destructive_write.2.1 c4CreState "new" "" "AK2" "SK2" "" ""
       (.runs 1 0 (some (some "1", some "a")) "") true c4CreAfter
       [.sectionHeader "old", .kv "aws_access_key_id" "OK"] (by decide)).1
     rfl (by decide),
   (backup_before_destructive_write.2.1 c4CreState "new" "" "AK2" "SK2" "" ""
       (.runs 1 0 (some (some "1", some "a")) "") true c4CreAfter
       [.sectionHeader "profile old", .kv "region" "r"] (by decide)).2
     rfl (by decide)⟩

end AwsProfile
